import Mathlib

/-!
Verification of the admission-controlled GPU job pipeline of
`pdfscribe2ds-fastapi` against its specification.

The development shallowly embeds the Python source:

* `service/model_manager.py` — the admission gate (`asyncio.BoundedSemaphore`)
  and the probe operations `try_admit_now` / `try_admit_with_timeout`;
* `service/pipeline.py` — the `_admit` scoped acquisition and `process_pdf`
  two-stage job, modelled as an event trace;
* `api/routes.py` — the admission policy of `process_pdf_endpoint`;
* `ocr_pipeline/pipeline.py` — the per-page OCR loop `run_pdf_pipeline`;
* `caption_pipeline/caption_pipeline.py` — the markdown image-tag matcher
  (the regex `!\[(.*?)\]\((.*?)\)` with Python lazy-quantifier semantics),
  the caption cache loop, the `repl` substitution and
  `caption_markdown_file`.

Machine integers do not occur; counters are embedded as `Int` so that
non-negativity is a genuine statement.  Fallible operations return `Option`.
-/

namespace PdfScribe

/-! ### Admission gate (`service/model_manager.py`)

`asyncio.BoundedSemaphore(gpu_slots)` keeps an internal counter `_value`
(initially `gpu_slots`) and a bound `_bound_value = gpu_slots`:

* `acquire()` suspends while `_value <= 0`, then decrements `_value`;
* `release()` raises `ValueError` when `_value >= _bound_value`
  (no mutation), otherwise increments `_value`.

The embedding records the counter and the bound; a blocked `acquire` and a
failing `release` leave the counter unchanged.  The number of held slots is
`bound - value`. -/

structure Gate where
  value : Int
  bound : Int
  deriving Repr, DecidableEq

/-- Model of `asyncio.BoundedSemaphore(n)`: counter starts at the capacity `n`. -/
def Gate.init (n : Int) : Gate := ⟨n, n⟩

/-- Number of slots currently held by jobs: capacity minus free counter. -/
def Gate.held (g : Gate) : Int := g.bound - g.value

/-- Model of `Semaphore.acquire()` completing without suspension: succeeds exactly
when the counter is positive, decrementing it; otherwise the caller blocks
and the counter is unchanged. -/
def Gate.tryAcquire (g : Gate) : Bool × Gate :=
  if 0 < g.value then (true, ⟨g.value - 1, g.bound⟩) else (false, g)

/-- Model of `BoundedSemaphore.release()`: `none` models the `ValueError` raised when
the counter is already at the bound (no mutation happens in that case). -/
def Gate.release (g : Gate) : Option Gate :=
  if g.bound ≤ g.value then none else some ⟨g.value + 1, g.bound⟩

/-- One gate operation of an interleaved history. -/
inductive GateOp where
  | acquire
  | release
  deriving Repr, DecidableEq

/-- Effect of one operation on the counter.  A still-blocked `acquire` and a
`ValueError`-raising `release` leave the state unchanged. -/
def gateStep (g : Gate) : GateOp → Gate
  | .acquire => (g.tryAcquire).2
  | .release => (g.release).getD g

/-- Run an interleaved acquire/release history against the gate. -/
def gateRun (g : Gate) (ops : List GateOp) : Gate :=
  ops.foldl gateStep g

/-- Gate well-formedness: the counter stays between `0` and the bound. -/
def GateWF (g : Gate) : Prop := 0 ≤ g.value ∧ g.value ≤ g.bound

instance (g : Gate) : Decidable (GateWF g) := by
  unfold GateWF; infer_instance

/-- Embedding of `try_admit_now` (`service/model_manager.py`): probes the gate via
`asyncio.wait_for(gate.acquire(), timeout=0.1)` and, on success,
*immediately releases* the slot again before returning `True`.
The embedding is quiescent: no other task releases a slot during the
`0.1 s` window, so the probe succeeds exactly when a slot is free at the
call. -/
def try_admit_now (g : Gate) : Bool × Gate :=
  match g.tryAcquire with
  | (false, _) => (false, g)
  | (true, g') =>
    -- "Immediately release after acquiring"
    (true, (g'.release).getD g')

/-- Embedding of `try_admit_with_timeout` (`service/model_manager.py`): probes the gate
via `asyncio.wait_for(gate.acquire(), timeout=timeout_s)`.  Per the source's
own note, `asyncio.wait_for` with `timeout <= 0` raises `TimeoutError`
before the acquire coroutine runs, even when a slot is free.  With a
positive timeout the quiescent embedding succeeds exactly when a slot is
free; on success the slot is immediately released again. -/
def try_admit_with_timeout (g : Gate) (timeout_s : ℚ) : Bool × Gate :=
  if timeout_s ≤ 0 then (false, g)
  else
    match g.tryAcquire with
    | (false, _) => (false, g)
    | (true, g') => (true, (g'.release).getD g')

end PdfScribe

namespace PdfScribe

/-! ### Gate invariant lemmas -/

theorem gateStep_bound (g : Gate) (op : GateOp) : (gateStep g op).bound = g.bound := by
  cases op <;> simp only [gateStep, Gate.tryAcquire, Gate.release]
  · split <;> rfl
  · split <;> rfl

theorem gateStep_wf {g : Gate} (h : GateWF g) (op : GateOp) : GateWF (gateStep g op) := by
  obtain ⟨h0, hb⟩ := h
  cases op <;> simp only [gateStep, Gate.tryAcquire, Gate.release]
  · split
    · constructor <;> simp <;> omega
    · exact ⟨h0, hb⟩
  · split
    · exact ⟨h0, hb⟩
    · constructor <;> simp <;> omega

theorem gateRun_bound (g : Gate) (ops : List GateOp) : (gateRun g ops).bound = g.bound := by
  induction ops generalizing g with
  | nil => rfl
  | cons op ops ih =>
    simp only [gateRun, List.foldl_cons] at *
    rw [ih, gateStep_bound]

theorem gateRun_wf {g : Gate} (h : GateWF g) (ops : List GateOp) : GateWF (gateRun g ops) := by
  induction ops generalizing g with
  | nil => exact h
  | cons op ops ih =>
    simp only [gateRun, List.foldl_cons] at *
    exact ih (gateStep_wf h op)

/-! ### The two-stage job (`service/pipeline.py`)

`process_pdf` runs `async with _admit():` around Stage 1 (OCR, via
`run_pdf_pipeline`) and Stage 2 (caption, via `run_caption_pipeline`).
`_admit` is an `asynccontextmanager` doing `await gate.acquire()`, then
`try: yield / finally: gate.release()`.  A stage that raises is wrapped
into an `HTTPException(500, ...)` which propagates out through `_admit`'s
`finally`.  The embedding records the gate and stage events of one job as
a trace; each stage's outcome (`True` = returned normally, `False` =
raised) is an oracle parameter. -/

inductive JobEv where
  | acquire
  | ocrStage
  | captionStage
  | release
  deriving Repr, DecidableEq

/-- Embedding of `_admit` (`service/pipeline.py`): scoped acquisition.  The body's trace
is bracketed by one `acquire` and one `release`; the `finally` emits the
`release` whether or not the body raised. -/
def _admit (body : List JobEv × Bool) : List JobEv × Bool :=
  (JobEv.acquire :: body.1 ++ [JobEv.release], body.2)

/-- Body of `process_pdf`'s `async with _admit():` block: Stage 1 runs
first; if it raises (`ocrOk = false`) the `HTTPException` skips Stage 2;
otherwise Stage 2 runs and its failure likewise raises. -/
def process_pdf_body (ocrOk captionOk : Bool) : List JobEv × Bool :=
  if ocrOk then
    ([JobEv.ocrStage, JobEv.captionStage], captionOk)
  else
    ([JobEv.ocrStage], false)

/-- Embedding of `process_pdf` (`service/pipeline.py`): the whole GPU-critical path
(OCR then caption) under one `_admit` scope.  Returns the event trace and
whether the job returned normally. -/
def process_pdf (ocrOk captionOk : Bool) : List JobEv × Bool :=
  _admit (process_pdf_body ocrOk captionOk)

/-! ### Per-page OCR loop (`ocr_pipeline/pipeline.py`)

`run_pdf_pipeline` iterates over the rendered page images; each iteration
OCRs the page, rewrites the markdown and writes one `.md` file, all inside
a per-page `try`.  On `Exception` the page is logged
(`logger.exception(..., skipping)`) and the loop continues.  The oracle
`ocrPage : α → Option β` models the whole per-page body: `some md` means
the markdown file `md` was produced, `none` means the body raised. -/

/-- One job's Stage-1 loop: returns the pages written (in order, with their
markdown) and the pages whose per-page body raised (logged and skipped). -/
def run_pdf_pipeline {α β : Type} (ocrPage : α → Option β) :
    List α → List (α × β) × List α
  | [] => ([], [])
  | p :: ps =>
    match ocrPage p with
    | some md =>
      let rest := run_pdf_pipeline ocrPage ps
      ((p, md) :: rest.1, rest.2)
    | none =>
      -- "Failed to process ...; skipping."
      let rest := run_pdf_pipeline ocrPage ps
      (rest.1, p :: rest.2)

/-! ### Admission policy of the endpoint (`api/routes.py`)

`process_pdf_endpoint` rejects with `HTTPException(429, ..., Retry-After
15)` when `wait_if_busy` is false and `try_admit_now()` fails, and with
`HTTPException(503, ..., Retry-After 30)` when `wait_if_busy` is true and
`try_admit_with_timeout(timeout_s)` fails.  Stage failures inside
`process_pdf` surface as `HTTPException(500, ...)` without a `Retry-After`
header. -/

structure HTTPErrorModel where
  status : Nat
  retryAfterS : Option Nat
  deriving Repr, DecidableEq

/-- Fail-fast rejection (`api/routes.py`): status 429, `Retry-After: 15`. -/
def busyFailFast : HTTPErrorModel := ⟨429, some 15⟩

/-- Wait-bounded rejection (`api/routes.py`): status 503, `Retry-After: 30`. -/
def busyWaitBounded : HTTPErrorModel := ⟨503, some 30⟩

/-- Stage-1 failure (`service/pipeline.py`): `HTTPException(500, "OCR
processing failed: ...")`, no `Retry-After` header. -/
def ocrStageFailure : HTTPErrorModel := ⟨500, none⟩

/-- Stage-2 failure (`service/pipeline.py`): `HTTPException(500, "Caption
processing failed: ...")`, no `Retry-After` header. -/
def captionStageFailure : HTTPErrorModel := ⟨500, none⟩

/-- Admission section of `process_pdf_endpoint` (`api/routes.py`): the
fail-fast policy probes `try_admit_now`, the wait-bounded policy probes
`try_admit_with_timeout(timeout_s)`; a failed probe raises the
corresponding rejection. -/
def process_pdf_endpoint_admission (g : Gate) (wait_if_busy : Bool)
    (timeout_s : ℚ) : Except HTTPErrorModel Unit :=
  if !wait_if_busy then
    if (try_admit_now g).1 then Except.ok () else Except.error busyFailFast
  else
    if (try_admit_with_timeout g timeout_s).1 then Except.ok ()
    else Except.error busyWaitBounded

/-! ### Markdown image tags (`caption_pipeline/caption_pipeline.py`)

`_IMG_TAG = re.compile(r'!\[(.*?)\]\((.*?)\)')`.  Python `re` semantics for
this pattern at one start position: after the literal `![`, the lazy group
`(.*?)` (where `.` excludes `\n`) grows one character at a time, each time
first trying to complete the match with `](` followed by the second lazy
group and `)`; the second group, being last, stops at the first `)` (with
no `\n` before it).  `finditer`/`sub` scan left to right, restarting one
character further after a failed start position and continuing immediately
after the consumed text on success. -/

/-- Match `(.*?)\)` at the start: the group is everything up to the first
`)`, failing on `\n` (`.` does not match newlines) or end of input.
Returns the group and the remaining input. -/
def matchRel : List Char → Option (List Char × List Char)
  | [] => none
  | c :: rest =>
    if c = ')' then some ([], rest)
    else if c = '\n' then none
    else (matchRel rest).map (fun p => (c :: p.1, p.2))

/-- Match `(.*?)\]\((.*?)\)` at the start (input begins right after `![`).
First try to close the alt group here with `](`; only if the rest of the
pattern cannot complete does the lazy group consume one more (non-newline)
character.  Returns `(alt, rel, remaining input)`. -/
def matchAlt : List Char → Option (List Char × List Char × List Char)
  | [] => none
  | ']' :: '(' :: rest2 =>
    match matchRel rest2 with
    | some p => some ([], p.1, p.2)
    | none =>
      -- `](` seen but no closing `)` reachable from here: the lazy group
      -- grows past the `]` (which is not a newline) and matching retries
      (matchAlt ('(' :: rest2)).map (fun p => (']' :: p.1, p.2.1, p.2.2))
  | c :: rest =>
    if c = '\n' then none
    else (matchAlt rest).map (fun p => (c :: p.1, p.2.1, p.2.2))

theorem matchRel_eq {cs r t : List Char} (h : matchRel cs = some (r, t)) :
    cs = r ++ ')' :: t := by
  induction cs generalizing r with
  | nil => simp [matchRel] at h
  | cons c rest ih =>
    simp only [matchRel] at h
    split at h
    · simp_all
    · split at h
      · simp at h
      · match hm : matchRel rest with
        | none => rw [hm] at h; simp at h
        | some (r', t') =>
          rw [hm] at h
          simp only [Option.map_some'] at h
          injection h with h
          obtain ⟨h1, h2⟩ := Prod.mk.injEq .. ▸ h
          subst h1 h2
          simpa using congrArg (c :: ·) (ih hm)

theorem matchAlt_eq : ∀ {cs a r t : List Char}, matchAlt cs = some (a, r, t) →
    cs = a ++ ']' :: '(' :: r ++ ')' :: t := by
  intro cs
  induction cs using matchAlt.induct with
  | case1 => intro a r t h; simp [matchAlt] at h
  | case2 rest2 p hm =>
    intro a r t h
    rw [matchAlt.eq_2, hm] at h
    simp only [Option.some.injEq, Prod.mk.injEq] at h
    obtain ⟨rfl, rfl, rfl⟩ := h
    simp [matchRel_eq hm]
  | case3 rest2 hm ih =>
    intro a r t h
    rw [matchAlt.eq_2, hm] at h
    match ha : matchAlt ('(' :: rest2) with
    | none => rw [ha] at h; simp at h
    | some (a', r', t') =>
      rw [ha] at h
      simp only [Option.map_some', Option.some.injEq, Prod.mk.injEq] at h
      obtain ⟨rfl, rfl, rfl⟩ := h
      simpa using congrArg (']' :: ·) (ih ha)
  | case4 rest hne =>
    intro a r t h
    rw [matchAlt.eq_3 _ _ hne] at h
    simp at h
  | case5 c rest hne hnl ih =>
    intro a r t h
    rw [matchAlt.eq_3 _ _ hne, if_neg hnl] at h
    match ha : matchAlt rest with
    | none => rw [ha] at h; simp at h
    | some (a', r', t') =>
      rw [ha] at h
      simp only [Option.map_some', Option.some.injEq, Prod.mk.injEq] at h
      obtain ⟨rfl, rfl, rfl⟩ := h
      simpa using congrArg (c :: ·) (ih ha)

theorem matchAlt_tail_lt {cs a r t : List Char} (h : matchAlt cs = some (a, r, t)) :
    t.length < cs.length := by
  have := matchAlt_eq h
  subst this
  simp
  omega

/-- Model of `_IMG_TAG.finditer(text)`: all non-overlapping matches in scan order,
as `(alt, rel)` group pairs. -/
def findTags : List Char → List (List Char × List Char)
  | [] => []
  | '!' :: '[' :: rest =>
    (match h : matchAlt rest with
     | some (alt, rel, t) => (alt, rel) :: findTags t
     | none => findTags ('[' :: rest))
  | _ :: rest => findTags rest
termination_by cs => cs.length
decreasing_by
  all_goals simp_wf
  all_goals try omega
  all_goals have hlt := matchAlt_tail_lt h
  all_goals omega

/-- Model of `_IMG_TAG.sub(f, text)`: replace every non-overlapping match by
`f alt rel`, copying unmatched characters through. -/
def subTags (f : List Char → List Char → List Char) : List Char → List Char
  | [] => []
  | '!' :: '[' :: rest =>
    (match h : matchAlt rest with
     | some (alt, rel, t) => f alt rel ++ subTags f t
     | none => '!' :: subTags f ('[' :: rest))
  | c :: rest => c :: subTags f rest
termination_by cs => cs.length
decreasing_by
  all_goals simp_wf
  all_goals try omega
  all_goals have hlt := matchAlt_tail_lt h
  all_goals omega

/-- Fuel-indexed mirror of `findTags`, structurally recursive on the fuel so
that the kernel can evaluate it on concrete inputs; `findTagsF_eq` proves it
agrees with `findTags` whenever the fuel covers the input length. -/
def findTagsF : Nat → List Char → List (List Char × List Char)
  | 0, _ => []
  | _ + 1, [] => []
  | fuel + 1, '!' :: '[' :: rest =>
    (match matchAlt rest with
     | some (alt, rel, t) => (alt, rel) :: findTagsF fuel t
     | none => findTagsF fuel ('[' :: rest))
  | fuel + 1, _ :: rest => findTagsF fuel rest

/-- Fuel-indexed mirror of `subTags` (see `findTagsF`). -/
def subTagsF (f : List Char → List Char → List Char) :
    Nat → List Char → List Char
  | 0, _ => []
  | _ + 1, [] => []
  | fuel + 1, '!' :: '[' :: rest =>
    (match matchAlt rest with
     | some (alt, rel, t) => f alt rel ++ subTagsF f fuel t
     | none => '!' :: subTagsF f fuel ('[' :: rest))
  | fuel + 1, c :: rest => c :: subTagsF f fuel rest

/-! ### The caption stage (`caption_pipeline/caption_pipeline.py`) -/

/-- Python default `str.strip()` whitespace (ASCII portion). -/
def isPySpace (c : Char) : Bool :=
  c = ' ' ∨ c = '\t' ∨ c = '\n' ∨ c = '\r' ∨ c = '\x0b' ∨ c = '\x0c'

/-- Python `s.strip()`: drop leading and trailing whitespace. -/
def pyStrip (l : List Char) : List Char :=
  ((l.dropWhile isPySpace).reverse.dropWhile isPySpace).reverse

/-- Python `alt or "Image"`: the empty string is falsy. -/
def altOrImage (alt : List Char) : List Char :=
  if alt = [] then "Image".data else alt

/-- Text of `m.group(0)` of an `_IMG_TAG` match: the full matched text. -/
def origTag (alt rel : List Char) : List Char :=
  '!' :: '[' :: (alt ++ ']' :: '(' :: (rel ++ [')']))

/-- Embedding of `_render_caption_block(alt, cap)`:
`f"\n\n*{(alt or 'Image').strip()} - {cap}*\n"`. -/
def renderCaptionBlock (alt cap : List Char) : List Char :=
  "\n\n*".data ++ pyStrip (altOrImage alt) ++ " - ".data ++ cap ++ "*\n".data

/-- Embedding of `CaptionRewrite` (`caption_pipeline/caption_pipeline.py`). -/
inductive CaptionRewrite where
  | APPEND
  | REPLACE
  deriving Repr, DecidableEq

/-- The `captions_cache` of the source is a `dict[str, str]`; embedded as an association
list keyed by the raw reference string. -/
def lookupCache : List (List Char × List Char) → List Char → Option (List Char)
  | [], _ => none
  | (k, v) :: rest, rel => if k = rel then some v else lookupCache rest rel

/-- The captioning loop of `caption_markdown_file` (lines 79–104): for each
match in order, skip references already in the cache, skip references whose
resolved image file does not exist (warned), otherwise invoke the caption
engine; a normal return (`capFn rel = some cap`) stores `cap` in the cache,
an exception (`capFn rel = none`) is logged and the loop continues without
caching.  Returns the final cache and the list of engine invocations made
(one entry per `captioner.caption` call, in order).

`imgExists rel` embeds `_resolve_image(md_file, rel).exists()` and `capFn`
embeds the `captioner.caption` call for the image at `rel`; both are
deterministic oracles for a fixed file and engine state. -/
def captionLoop (imgExists : List Char → Bool)
    (capFn : List Char → Option (List Char)) :
    List (List Char × List Char) → List (List Char × List Char) →
    List (List Char × List Char) × List (List Char)
  | [], cache => (cache, [])
  | (_, rel) :: ms, cache =>
    if (lookupCache cache rel).isSome then
      captionLoop imgExists capFn ms cache
    else if imgExists rel then
      match capFn rel with
      | some cap =>
        let rest := captionLoop imgExists capFn ms ((rel, cap) :: cache)
        (rest.1, rel :: rest.2)
      | none =>
        -- "Failed to caption image ...": logged, not cached
        let rest := captionLoop imgExists capFn ms cache
        (rest.1, rel :: rest.2)
    else
      -- "Image not found ...": warned, engine not invoked
      captionLoop imgExists capFn ms cache

/-- The inner `repl(m)` of `caption_markdown_file` (lines 107–119): a match
whose reference has no truthy cached caption is returned unchanged
(`m.group(0)`); otherwise `REPLACE` yields inline captioned text and
`APPEND` keeps the original tag followed by the caption block. -/
def repl (rewrite : CaptionRewrite) (cache : List (List Char × List Char))
    (alt rel : List Char) : List Char :=
  match lookupCache cache rel with
  | none => origTag alt rel
  | some cap =>
    if cap = [] then origTag alt rel
    else
      match rewrite with
      | .REPLACE =>
        pyStrip (altOrImage alt) ++ " (Interpreted and captioned): ".data ++ cap
      | .APPEND => origTag alt rel ++ renderCaptionBlock alt cap

/-- Result of `caption_markdown_file`: the returned boolean and the write
performed on the file (`none` = the file was not rewritten). -/
structure CaptionFileResult where
  changed : Bool
  written : Option (List Char)
  deriving Repr, DecidableEq

/-- Embedding of `caption_markdown_file` (`caption_pipeline/caption_pipeline.py`): list
the `_IMG_TAG` matches; with no matches return `False` without touching the
file; otherwise build the caption cache, substitute every match through
`repl`, and write the file back only when the substitution changed the
text. -/
def caption_markdown_file (imgExists : List Char → Bool)
    (capFn : List Char → Option (List Char)) (rewrite : CaptionRewrite)
    (text : List Char) : CaptionFileResult :=
  let tagMatches := findTags text
  if tagMatches = [] then ⟨false, none⟩
  else
    let cache := (captionLoop imgExists capFn tagMatches []).1
    let newText := subTags (repl rewrite cache) text
    if newText = text then ⟨false, none⟩ else ⟨true, some newText⟩

/-- Engine invocations performed while processing `text`. -/
def engineCalls (imgExists : List Char → Bool)
    (capFn : List Char → Option (List Char)) (text : List Char) :
    List (List Char) :=
  (captionLoop imgExists capFn (findTags text) []).2

/-- Content of the markdown file after the caption stage. -/
def contentAfter (imgExists : List Char → Bool)
    (capFn : List Char → Option (List Char)) (rewrite : CaptionRewrite)
    (text : List Char) : List Char :=
  ((caption_markdown_file imgExists capFn rewrite text).written).getD text

/-- Whether `"]("` occurs as a substring: every markdown image tag contains it, so
its absence certifies absence of markdown image syntax. -/
def containsJL : List Char → Bool
  | [] => false
  | [_] => false
  | c1 :: c2 :: rest => (c1 = ']' && c2 = '(') || containsJL (c2 :: rest)

def jlJunction (a b : List Char) : Bool :=
  match a.getLast?, b.head? with
  | some ']', some '(' => true
  | _, _ => false

theorem containsJL_append (a b : List Char) :
    containsJL (a ++ b) = (containsJL a || jlJunction a b || containsJL b) := by
  induction a with
  | nil => simp [containsJL, jlJunction]
  | cons c1 arest ih =>
    cases arest with
    | nil =>
      cases b with
      | nil => simp [containsJL, jlJunction]
      | cons c2 brest =>
        simp [containsJL, jlJunction, List.getLast?_singleton]
        cases hc1 : decide (c1 = ']') <;> cases hc2 : decide (c2 = '(') <;> simp_all
    | cons c2 arest2 =>
      have : (c1 :: c2 :: arest2) ++ b = c1 :: ((c2 :: arest2) ++ b) := rfl
      rw [this]
      have hL : containsJL (c1 :: ((c2 :: arest2) ++ b))
          = ((c1 = ']' && c2 = '(') || containsJL ((c2 :: arest2) ++ b)) := rfl
      rw [hL, ih]
      have hR : containsJL (c1 :: c2 :: arest2)
          = ((c1 = ']' && c2 = '(') || containsJL (c2 :: arest2)) := rfl
      rw [hR]
      have hJ : jlJunction (c1 :: c2 :: arest2) b = jlJunction (c2 :: arest2) b := by
        simp [jlJunction, List.getLast?_cons_cons]
      rw [hJ]
      cases (c1 = ']' && c2 = '(') <;> simp

theorem containsJL_cons_true {l : List Char} (c : Char) (h : containsJL l = true) :
    containsJL (c :: l) = true := by
  cases l with
  | nil => simp [containsJL] at h
  | cons c2 rest =>
    have : containsJL (c :: c2 :: rest) = ((c = ']' && c2 = '(') || containsJL (c2 :: rest)) := rfl
    rw [this, h]
    simp

theorem containsJL_append_right {a b : List Char} (h : containsJL b = true) :
    containsJL (a ++ b) = true := by
  rw [containsJL_append, h]
  simp

theorem containsJL_append_left {a b : List Char} (h : containsJL a = true) :
    containsJL (a ++ b) = true := by
  rw [containsJL_append, h]
  simp

theorem containsJL_middle_false {u m v : List Char}
    (h : containsJL (u ++ m ++ v) = false) : containsJL m = false := by
  by_contra hm
  simp only [Bool.not_eq_false] at hm
  have : containsJL (u ++ m ++ v) = true := by
    rw [List.append_assoc]
    exact containsJL_append_right (containsJL_append_left hm)
  rw [this] at h
  cases h

theorem matchRel_cons_ne {c : Char} {rest : List Char} (h1 : ¬ c = ')') (h2 : ¬ c = '\n') :
    matchRel (c :: rest) = (matchRel rest).map (fun p => (c :: p.1, p.2)) := by
  simp [matchRel, h1, h2]

theorem matchRel_none_matchAlt : ∀ {cs : List Char}, matchRel cs = none → matchAlt cs = none := by
  intro cs
  induction cs using matchAlt.induct with
  | case1 => intro _; rfl
  | case2 rest2 p hm =>
    intro h
    rw [matchRel_cons_ne (by decide) (by decide), matchRel_cons_ne (by decide) (by decide)] at h
    simp only [Option.map_eq_none'] at h
    rw [h] at hm
    cases hm
  | case3 rest2 hm ih =>
    intro h
    rw [matchAlt.eq_2, hm]
    have hrel : matchRel ('(' :: rest2) = none := by
      rw [matchRel_cons_ne (by decide) (by decide), hm]
      rfl
    rw [ih hrel]
    rfl
  | case4 rest hne =>
    intro h
    rw [matchAlt.eq_3 _ _ hne]
    simp
  | case5 c rest hne hnl ih =>
    intro h
    rw [matchAlt.eq_3 _ _ hne, if_neg hnl]
    by_cases hc : c = ')'
    · subst hc; simp [matchRel] at h
    · rw [matchRel_cons_ne hc hnl] at h
      simp only [Option.map_eq_none'] at h
      rw [ih h]
      rfl

theorem matchAlt_alt_noJL : ∀ {cs a r t : List Char}, matchAlt cs = some (a, r, t) →
    containsJL a = false := by
  intro cs
  induction cs using matchAlt.induct with
  | case1 => intro a r t h; cases h
  | case2 rest2 p hm =>
    intro a r t h
    rw [matchAlt.eq_2, hm] at h
    simp only [Option.some.injEq, Prod.mk.injEq] at h
    obtain ⟨rfl, _, _⟩ := h
    rfl
  | case3 rest2 hm ih =>
    intro a r t h
    rw [matchAlt.eq_2, hm] at h
    have : matchRel ('(' :: rest2) = none := by
      rw [matchRel_cons_ne (by decide) (by decide), hm]
      rfl
    rw [matchRel_none_matchAlt this] at h
    cases h
  | case4 rest hne =>
    intro a r t h
    rw [matchAlt.eq_3 _ _ hne] at h
    simp at h
  | case5 c rest hne hnl ih =>
    intro a r t h
    rw [matchAlt.eq_3 _ _ hne, if_neg hnl] at h
    match ha : matchAlt rest with
    | none => rw [ha] at h; cases h
    | some (a', r', t') =>
      rw [ha] at h
      simp only [Option.map_some', Option.some.injEq, Prod.mk.injEq] at h
      obtain ⟨rfl, rfl, rfl⟩ := h
      have hrec := ih ha
      cases a' with
      | nil => rfl
      | cons c2 a2 =>
        have hstep : containsJL (c :: c2 :: a2) = ((c = ']' && c2 = '(') || containsJL (c2 :: a2)) := rfl
        rw [hstep, hrec]
        have : (c = ']' && c2 = '(') = false := by
          by_cases h1 : c = ']'
          · by_cases h2 : c2 = '('
            · exfalso
              have := matchAlt_eq ha
              apply hne (a2 ++ ']' :: '(' :: r' ++ ')' :: t') h1
              rw [this, h2]
              rfl
            · simp [h2]
          · simp [h1]
        rw [this]
        rfl

theorem containsJL_jl (x : List Char) : containsJL (']' :: '(' :: x) = true := by
  have hstep : containsJL (']' :: '(' :: x)
      = ((']' = ']' : Bool) && ('(' = '(' : Bool) || containsJL ('(' :: x)) := rfl
  rw [hstep]
  simp

theorem matchAlt_some_containsJL {cs a r t : List Char} (h : matchAlt cs = some (a, r, t)) :
    containsJL cs = true := by
  rw [matchAlt_eq h]
  have hassoc : a ++ ']' :: '(' :: r ++ ')' :: t
      = a ++ (']' :: '(' :: (r ++ ')' :: t)) := by simp
  rw [hassoc]
  exact containsJL_append_right (containsJL_jl _)

theorem findTags_cons_some {rest alt rel t : List Char}
    (hm : matchAlt rest = some (alt, rel, t)) :
    findTags ('!' :: '[' :: rest) = (alt, rel) :: findTags t := by
  rw [findTags.eq_2]
  split
  · next alt' rel' t' h' =>
    rw [hm] at h'
    simp only [Option.some.injEq, Prod.mk.injEq] at h'
    obtain ⟨rfl, rfl, rfl⟩ := h'
    rfl
  · next h' => rw [hm] at h'; cases h'

theorem findTags_cons_none {rest : List Char} (hm : matchAlt rest = none) :
    findTags ('!' :: '[' :: rest) = findTags ('[' :: rest) := by
  rw [findTags.eq_2]
  split
  · next alt' rel' t' h' => rw [hm] at h'; cases h'
  · rfl

theorem subTags_cons_some {f : List Char → List Char → List Char}
    {rest alt rel t : List Char} (hm : matchAlt rest = some (alt, rel, t)) :
    subTags f ('!' :: '[' :: rest) = f alt rel ++ subTags f t := by
  rw [subTags.eq_2]
  split
  · next alt' rel' t' h' =>
    rw [hm] at h'
    simp only [Option.some.injEq, Prod.mk.injEq] at h'
    obtain ⟨rfl, rfl, rfl⟩ := h'
    rfl
  · next h' => rw [hm] at h'; cases h'

theorem subTags_cons_none {f : List Char → List Char → List Char}
    {rest : List Char} (hm : matchAlt rest = none) :
    subTags f ('!' :: '[' :: rest) = '!' :: subTags f ('[' :: rest) := by
  rw [subTags.eq_2]
  split
  · next alt' rel' t' h' => rw [hm] at h'; cases h'
  · rfl

theorem containsJL_cons_false {c : Char} {l : List Char}
    (h : containsJL (c :: l) = false) : containsJL l = false := by
  by_contra hl
  simp only [Bool.not_eq_false] at hl
  rw [containsJL_cons_true c hl] at h
  cases h

theorem findTags_nil_of_noJL : ∀ {l : List Char}, containsJL l = false → findTags l = [] := by
  intro l
  induction l using findTags.induct with
  | case1 => intro _; rw [findTags.eq_1]
  | case2 rest alt rel t hm ih =>
    intro h
    exfalso
    have h1 := containsJL_cons_false (containsJL_cons_false h)
    rw [matchAlt_some_containsJL hm] at h1
    cases h1
  | case3 rest hm ih =>
    intro h
    rw [findTags_cons_none hm]
    exact ih (containsJL_cons_false h)
  | case4 c rest hne ih =>
    intro h
    rw [findTags.eq_3 _ _ hne]
    exact ih (containsJL_cons_false h)

theorem findTags_mem_alt_noJL : ∀ {l alt rel : List Char},
    (alt, rel) ∈ findTags l → containsJL alt = false := by
  intro l
  induction l using findTags.induct with
  | case1 => intro alt rel h; rw [findTags.eq_1] at h; cases h
  | case2 rest alt' rel' t hm ih =>
    intro alt rel h
    rw [findTags_cons_some hm] at h
    rcases List.mem_cons.mp h with h1 | h2
    · obtain ⟨h1a, h1b⟩ := Prod.mk.injEq .. ▸ h1
      subst h1a
      exact matchAlt_alt_noJL hm
    · exact ih h2
  | case3 rest hm ih =>
    intro alt rel h
    rw [findTags_cons_none hm] at h
    exact ih h
  | case4 c rest hne ih =>
    intro alt rel h
    rw [findTags.eq_3 _ _ hne] at h
    exact ih h

theorem findTags_mem_decomp : ∀ {l alt rel : List Char},
    (alt, rel) ∈ findTags l →
    ∃ pre post, l = pre ++ origTag alt rel ++ post := by
  intro l
  induction l using findTags.induct with
  | case1 => intro alt rel h; rw [findTags.eq_1] at h; cases h
  | case2 rest alt' rel' t hm ih =>
    intro alt rel h
    rw [findTags_cons_some hm] at h
    rcases List.mem_cons.mp h with h1 | h2
    · obtain ⟨h1a, h1b⟩ := Prod.mk.injEq .. ▸ h1
      subst h1a h1b
      refine ⟨[], t, ?_⟩
      rw [matchAlt_eq hm]
      simp [origTag]
    · obtain ⟨pre, post, hp⟩ := ih h2
      refine ⟨'!' :: '[' :: (alt' ++ ']' :: '(' :: rel' ++ ')' :: pre), post, ?_⟩
      rw [matchAlt_eq hm, hp]
      simp
  | case3 rest hm ih =>
    intro alt rel h
    rw [findTags_cons_none hm] at h
    obtain ⟨pre, post, hp⟩ := ih h
    refine ⟨'!' :: pre, post, ?_⟩
    rw [show ('!' :: '[' :: rest : List Char) = '!' :: ('[' :: rest) from rfl, hp]
    rfl
  | case4 c rest hne ih =>
    intro alt rel h
    rw [findTags.eq_3 _ _ hne] at h
    obtain ⟨pre, post, hp⟩ := ih h
    refine ⟨c :: pre, post, ?_⟩
    rw [show (c :: rest : List Char) = c :: rest from rfl, hp]
    rfl

theorem subTags_mem_decomp : ∀ {l alt rel : List Char}
    (f : List Char → List Char → List Char),
    (alt, rel) ∈ findTags l →
    ∃ pre post, subTags f l = pre ++ f alt rel ++ post := by
  intro l
  induction l using findTags.induct with
  | case1 => intro alt rel f h; rw [findTags.eq_1] at h; cases h
  | case2 rest alt' rel' t hm ih =>
    intro alt rel f h
    rw [findTags_cons_some hm] at h
    rcases List.mem_cons.mp h with h1 | h2
    · obtain ⟨h1a, h1b⟩ := Prod.mk.injEq .. ▸ h1
      subst h1a h1b
      exact ⟨[], subTags f t, by rw [subTags_cons_some hm]; rfl⟩
    · obtain ⟨pre, post, hp⟩ := ih f h2
      refine ⟨f alt' rel' ++ pre, post, ?_⟩
      rw [subTags_cons_some hm, hp]
      simp
  | case3 rest hm ih =>
    intro alt rel f h
    rw [findTags_cons_none hm] at h
    obtain ⟨pre, post, hp⟩ := ih f h
    refine ⟨'!' :: pre, post, ?_⟩
    rw [subTags_cons_none hm, hp]
    rfl
  | case4 c rest hne ih =>
    intro alt rel f h
    rw [findTags.eq_3 _ _ hne] at h
    obtain ⟨pre, post, hp⟩ := ih f h
    refine ⟨c :: pre, post, ?_⟩
    rw [subTags.eq_3 _ _ _ hne, hp]
    rfl

theorem findTagsF_eq : ∀ (n : Nat) (cs : List Char), cs.length ≤ n →
    findTagsF n cs = findTags cs := by
  intro n cs
  induction n, cs using findTagsF.induct with
  | case1 cs =>
    intro h
    have : cs = [] := by cases cs with
      | nil => rfl
      | cons c rest => simp at h
    subst this
    rw [findTags.eq_1]
    rfl
  | case2 n =>
    intro _
    rw [findTags.eq_1]
    rfl
  | case3 n rest alt rel t hm ih =>
    intro h
    rw [findTags_cons_some hm]
    simp only [findTagsF, hm]
    rw [ih (by have := matchAlt_tail_lt hm; simp at h; omega)]
  | case4 n rest hm ih =>
    intro h
    rw [findTags_cons_none hm]
    simp only [findTagsF, hm]
    rw [ih (by simp at h ⊢; omega)]
  | case5 n c rest hne ih =>
    intro h
    rw [findTags.eq_3 _ _ hne]
    have hstep : findTagsF (n + 1) (c :: rest) = findTagsF n rest := by
      rw [findTagsF.eq_4 _ _ _ hne]
    rw [hstep, ih (by simp at h ⊢; omega)]

/-- Evaluation form of `findTags` for concrete inputs. -/
theorem findTags_eval (cs : List Char) : findTags cs = findTagsF cs.length cs :=
  (findTagsF_eq cs.length cs (Nat.le_refl _)).symm

theorem subTagsF_eq (f : List Char → List Char → List Char) :
    ∀ (n : Nat) (cs : List Char), cs.length ≤ n →
    subTagsF f n cs = subTags f cs := by
  intro n cs
  induction n, cs using subTagsF.induct (f := f) with
  | case1 cs =>
    intro h
    have : cs = [] := by cases cs with
      | nil => rfl
      | cons c rest => simp at h
    subst this
    rw [subTags.eq_1]
    rfl
  | case2 n =>
    intro _
    rw [subTags.eq_1]
    rfl
  | case3 n rest alt rel t hm ih =>
    intro h
    rw [subTags_cons_some hm]
    simp only [subTagsF, hm]
    rw [ih (by have := matchAlt_tail_lt hm; simp at h; omega)]
  | case4 n rest hm ih =>
    intro h
    rw [subTags_cons_none hm]
    simp only [subTagsF, hm]
    rw [ih (by simp at h ⊢; omega)]
  | case5 n c rest hne ih =>
    intro h
    rw [subTags.eq_3 _ _ _ hne]
    have hstep : subTagsF f (n + 1) (c :: rest) = c :: subTagsF f n rest := by
      rw [subTagsF.eq_4 _ _ _ _ hne]
    rw [hstep, ih (by simp at h ⊢; omega)]

/-- Evaluation form of `subTags` for concrete inputs. -/
theorem subTags_eval (f : List Char → List Char → List Char) (cs : List Char) :
    subTags f cs = subTagsF f cs.length cs :=
  (subTagsF_eq f cs.length cs (Nat.le_refl _)).symm

theorem pyStrip_decomp (l : List Char) : ∃ u v, l = u ++ pyStrip l ++ v := by
  refine ⟨l.takeWhile isPySpace,
    ((l.dropWhile isPySpace).reverse.takeWhile isPySpace).reverse, ?_⟩
  have h1 : l.takeWhile isPySpace ++ l.dropWhile isPySpace = l :=
    List.takeWhile_append_dropWhile _ _
  have h2 : (l.dropWhile isPySpace).reverse.takeWhile isPySpace
      ++ (l.dropWhile isPySpace).reverse.dropWhile isPySpace
      = (l.dropWhile isPySpace).reverse :=
    List.takeWhile_append_dropWhile _ _
  have h3 := congrArg List.reverse h2
  rw [List.reverse_append, List.reverse_reverse] at h3
  conv_lhs => rw [← h1, ← h3]
  rw [pyStrip, List.append_assoc]

theorem containsJL_altOrImage {alt : List Char} (h : containsJL alt = false) :
    containsJL (altOrImage alt) = false := by
  unfold altOrImage
  split
  · decide
  · exact h

theorem containsJL_pyStrip {l : List Char} (h : containsJL l = false) :
    containsJL (pyStrip l) = false := by
  obtain ⟨u, v, hd⟩ := pyStrip_decomp l
  rw [hd] at h
  exact containsJL_middle_false h

theorem jlJunction_false_head {a b : List Char} (h : ¬ b.head? = some '(') :
    jlJunction a b = false := by
  unfold jlJunction
  split
  · next heq1 heq2 => exact absurd heq2 h
  · rfl

theorem jlJunction_false_last {a b : List Char} (h : ¬ a.getLast? = some ']') :
    jlJunction a b = false := by
  unfold jlJunction
  split
  · next heq1 heq2 => exact absurd heq1 h
  · rfl

/-- The inline text substituted by `repl` in `REPLACE` mode contains no
`"]("`, provided neither the matched alt text nor the caption does. -/
theorem replaceText_noJL {alt cap : List Char} (halt : containsJL alt = false)
    (hcap : containsJL cap = false) :
    containsJL (pyStrip (altOrImage alt)
      ++ " (Interpreted and captioned): ".data ++ cap) = false := by
  rw [containsJL_append, containsJL_append]
  rw [containsJL_pyStrip (containsJL_altOrImage halt), hcap]
  rw [show containsJL " (Interpreted and captioned): ".data = false from by decide]
  rw [jlJunction_false_head (a := pyStrip (altOrImage alt))
    (b := " (Interpreted and captioned): ".data)
    (by decide)]
  rw [jlJunction_false_last
    (a := pyStrip (altOrImage alt) ++ " (Interpreted and captioned): ".data)
    (b := cap)
    (by rw [List.getLast?_append_of_ne_nil _ (by decide)]
        decide)]
  rfl

/-! ### Caption-cache lemmas -/

theorem captionLoop_nil {imgExists : List Char → Bool}
    {capFn : List Char → Option (List Char)} {cache : List (List Char × List Char)} :
    captionLoop imgExists capFn [] cache = (cache, []) := rfl

theorem captionLoop_cons_cached {imgExists : List Char → Bool}
    {capFn : List Char → Option (List Char)} {alt' rel' : List Char}
    {ms cache : List (List Char × List Char)}
    (h : (lookupCache cache rel').isSome) :
    captionLoop imgExists capFn ((alt', rel') :: ms) cache
      = captionLoop imgExists capFn ms cache := by
  simp only [captionLoop, h, if_pos]

theorem captionLoop_cons_missing {imgExists : List Char → Bool}
    {capFn : List Char → Option (List Char)} {alt' rel' : List Char}
    {ms cache : List (List Char × List Char)}
    (h1 : lookupCache cache rel' = none) (h2 : imgExists rel' = false) :
    captionLoop imgExists capFn ((alt', rel') :: ms) cache
      = captionLoop imgExists capFn ms cache := by
  simp only [captionLoop, h1, h2, Option.isSome_none, Bool.false_eq_true, if_false]

theorem captionLoop_cons_ok {imgExists : List Char → Bool}
    {capFn : List Char → Option (List Char)} {alt' rel' cap' : List Char}
    {ms cache : List (List Char × List Char)}
    (h1 : lookupCache cache rel' = none) (h2 : imgExists rel' = true)
    (h3 : capFn rel' = some cap') :
    captionLoop imgExists capFn ((alt', rel') :: ms) cache
      = ((captionLoop imgExists capFn ms ((rel', cap') :: cache)).1,
         rel' :: (captionLoop imgExists capFn ms ((rel', cap') :: cache)).2) := by
  simp only [captionLoop, h1, h2, h3, Option.isSome_none, Bool.false_eq_true, if_false, if_true]

theorem captionLoop_cons_raise {imgExists : List Char → Bool}
    {capFn : List Char → Option (List Char)} {alt' rel' : List Char}
    {ms cache : List (List Char × List Char)}
    (h1 : lookupCache cache rel' = none) (h2 : imgExists rel' = true)
    (h3 : capFn rel' = none) :
    captionLoop imgExists capFn ((alt', rel') :: ms) cache
      = ((captionLoop imgExists capFn ms cache).1,
         rel' :: (captionLoop imgExists capFn ms cache).2) := by
  simp only [captionLoop, h1, h2, h3, Option.isSome_none, Bool.false_eq_true, if_false, if_true]

/-- Every cache entry produced by the captioning loop records a reference
whose image exists and whose engine call returned exactly that caption. -/
theorem captionLoop_cache_sound {imgExists : List Char → Bool}
    {capFn : List Char → Option (List Char)} :
    ∀ {ms cache : List (List Char × List Char)},
    (∀ k v, lookupCache cache k = some v → imgExists k = true ∧ capFn k = some v) →
    ∀ k v, lookupCache (captionLoop imgExists capFn ms cache).1 k = some v →
      imgExists k = true ∧ capFn k = some v := by
  intro ms
  induction ms with
  | nil => intro cache hc k v h; exact hc k v h
  | cons m ms ih =>
    intro cache hc k v h
    obtain ⟨alt', rel'⟩ := m
    match hlook : lookupCache cache rel' with
    | some v' =>
      rw [captionLoop_cons_cached (by rw [hlook]; rfl)] at h
      exact ih hc k v h
    | none =>
      cases h2 : imgExists rel' with
      | false =>
        rw [captionLoop_cons_missing hlook h2] at h
        exact ih hc k v h
      | true =>
        match h3 : capFn rel' with
        | some cap' =>
          rw [captionLoop_cons_ok hlook h2 h3] at h
          simp only at h
          refine ih ?_ k v h
          intro k' v' hk'
          simp only [lookupCache] at hk'
          split at hk'
          · next heq =>
            subst heq
            injection hk' with hv
            subst hv
            exact ⟨h2, h3⟩
          · exact hc k' v' hk'
        | none =>
          rw [captionLoop_cons_raise hlook h2 h3] at h
          simp only at h
          exact ih hc k v h

/-- References already present in the cache are never sent to the engine
again: their invocation count over the rest of the loop is zero. -/
theorem captionLoop_count_zero {imgExists : List Char → Bool}
    {capFn : List Char → Option (List Char)} {rel : List Char} :
    ∀ {ms cache : List (List Char × List Char)},
    (lookupCache cache rel).isSome →
    ((captionLoop imgExists capFn ms cache).2).count rel = 0 := by
  intro ms
  induction ms with
  | nil => intro cache _; rfl
  | cons m ms ih =>
    intro cache hc
    obtain ⟨alt', rel'⟩ := m
    match hlook : lookupCache cache rel' with
    | some v' =>
      rw [captionLoop_cons_cached (by rw [hlook]; rfl)]
      exact ih hc
    | none =>
      have hne : rel' ≠ rel := by
        intro heq
        subst heq
        rw [hlook] at hc
        cases hc
      have hbeq : (rel' == rel) = false := by
        simp only [beq_eq_false_iff_ne, ne_eq]
        exact hne
      cases h2 : imgExists rel' with
      | false =>
        rw [captionLoop_cons_missing hlook h2]
        exact ih hc
      | true =>
        match h3 : capFn rel' with
        | some cap' =>
          rw [captionLoop_cons_ok hlook h2 h3]
          simp only [List.count_cons, hbeq, if_false]
          have hin : (lookupCache ((rel', cap') :: cache) rel).isSome := by
            simp only [lookupCache]
            rw [if_neg hne]
            exact hc
          simpa using ih hin
        | none =>
          rw [captionLoop_cons_raise hlook h2 h3]
          simp only [List.count_cons, hbeq, if_false]
          simpa using ih hc

/-- A reference whose engine call completes successfully is invoked at most
once, however many times it occurs among the matches. -/
theorem captionLoop_count_le_one {imgExists : List Char → Bool}
    {capFn : List Char → Option (List Char)} {rel cap : List Char}
    (hsucc : capFn rel = some cap) :
    ∀ {ms cache : List (List Char × List Char)},
    ((captionLoop imgExists capFn ms cache).2).count rel ≤ 1 := by
  intro ms
  induction ms with
  | nil => intro cache; simp [captionLoop_nil]
  | cons m ms ih =>
    intro cache
    obtain ⟨alt', rel'⟩ := m
    match hlook : lookupCache cache rel' with
    | some v' =>
      rw [captionLoop_cons_cached (by rw [hlook]; rfl)]
      exact ih
    | none =>
      cases h2 : imgExists rel' with
      | false =>
        rw [captionLoop_cons_missing hlook h2]
        exact ih
      | true =>
        match h3 : capFn rel' with
        | some cap' =>
          rw [captionLoop_cons_ok hlook h2 h3]
          by_cases heq : rel' = rel
          · subst heq
            simp only [List.count_cons, beq_self_eq_true, if_true]
            have hin : (lookupCache ((rel', cap') :: cache) rel').isSome := by
              simp [lookupCache]
            rw [captionLoop_count_zero hin]
          · have hbeq : (rel' == rel) = false := by
              simp only [beq_eq_false_iff_ne, ne_eq]
              exact heq
            simp only [List.count_cons, hbeq, if_false]
            simpa using ih
        | none =>
          have heq : rel' ≠ rel := by
            intro h
            subst h
            rw [h3] at hsucc
            cases hsucc
          have hbeq : (rel' == rel) = false := by
            simp only [beq_eq_false_iff_ne, ne_eq]
            exact heq
          rw [captionLoop_cons_raise hlook h2 h3]
          simp only [List.count_cons, hbeq, if_false]
          simpa using ih

/-! ## Claim theorems -/

/-- C1 (counterexample): on a fresh one-slot gate, `try_admit_now` returns
`true`, yet the held count right after the call is `0`, not incremented by
one — the probe releases the slot before returning, so no slot is held
from the moment of the call. -/
theorem C1_counterexample :
    (try_admit_now (Gate.init 1)).1 = true ∧
    ((try_admit_now (Gate.init 1)).2).held = 0 ∧
    ¬ ((try_admit_now (Gate.init 1)).2).held = (Gate.init 1).held + 1 := by
  decide

/-- C1 (amended): `try_admit_now` is a pure probe.  When a slot is free it
acquires and immediately releases, returning `true` with the gate state —
in particular the held count — exactly as before the call; when all slots
are held it returns `false`, also leaving the gate unchanged.  The hold
for the job itself is taken separately by `process_pdf`'s `_admit`. -/
theorem C1_probe_no_hold (g : Gate) (hwf : GateWF g) :
    (g.held < g.bound → try_admit_now g = (true, g)) ∧
    (g.held = g.bound → try_admit_now g = (false, g)) := by
  obtain ⟨h0, hb⟩ := hwf
  constructor
  · intro h
    have hv : 0 < g.value := by unfold Gate.held at h; omega
    unfold try_admit_now Gate.tryAcquire
    rw [if_pos hv]
    simp only [Gate.release]
    rw [if_neg (show ¬ g.bound ≤ g.value - 1 by omega)]
    simp only [Option.getD_some]
    have hval : g.value - 1 + 1 = g.value := by omega
    rw [hval]
  · intro h
    have hv : ¬ 0 < g.value := by unfold Gate.held at h; omega
    unfold try_admit_now Gate.tryAcquire
    rw [if_neg hv]

/-- Witness for `C1_probe_no_hold` on a fresh one-slot gate. -/
theorem C1_probe_no_hold_witness :
    GateWF (Gate.init 1) ∧ (Gate.init 1).held < (Gate.init 1).bound ∧
    try_admit_now (Gate.init 1) = (true, Gate.init 1) :=
  ⟨by decide, by decide, (C1_probe_no_hold (Gate.init 1) (by decide)).1 (by decide)⟩

/-- C2: for every capacity `N ≥ 1` and every interleaved acquire/release
history, the number of concurrently held slots stays within `0 ≤ held ≤ N`. -/
theorem C2_gate_invariant (n : Int) (ops : List GateOp) (hn : 1 ≤ n) :
    0 ≤ (gateRun (Gate.init n) ops).held ∧
    (gateRun (Gate.init n) ops).held ≤ n := by
  have hwf : GateWF (Gate.init n) := by
    constructor <;> simp only [Gate.init] <;> omega
  obtain ⟨ha, hb⟩ := gateRun_wf hwf ops
  have hbn : (gateRun (Gate.init n) ops).bound = n := gateRun_bound (Gate.init n) ops
  rw [hbn] at hb
  unfold Gate.held
  rw [hbn]
  constructor <;> omega

/-- Witness for `C2_gate_invariant` on a two-acquire/one-release history. -/
theorem C2_gate_invariant_witness :
    (1 : Int) ≤ 1 ∧
    0 ≤ (gateRun (Gate.init 1) [GateOp.acquire, GateOp.acquire, GateOp.release]).held ∧
    (gateRun (Gate.init 1) [GateOp.acquire, GateOp.acquire, GateOp.release]).held ≤ 1 :=
  ⟨by decide,
   (C2_gate_invariant 1 [GateOp.acquire, GateOp.acquire, GateOp.release] (by decide)).1,
   (C2_gate_invariant 1 [GateOp.acquire, GateOp.acquire, GateOp.release] (by decide)).2⟩

/-- C3: for every combination of stage outcomes, `process_pdf`'s trace
acquires the gate exactly once as its very first event, releases exactly
once as its very last event (so the gate is held across everything in
between, including both stages), runs Stage 1 exactly once, runs Stage 2
exactly when Stage 1 returned normally, and succeeds iff both stages do —
the single release happens on every exit path, exceptions included. -/
theorem C3_scoped_release (o c : Bool) :
    ((process_pdf o c).1).count JobEv.acquire = 1 ∧
    ((process_pdf o c).1).count JobEv.release = 1 ∧
    ((process_pdf o c).1).head? = some JobEv.acquire ∧
    ((process_pdf o c).1).getLast? = some JobEv.release ∧
    ((process_pdf o c).1).count JobEv.ocrStage = 1 ∧
    ((process_pdf o c).1).count JobEv.captionStage = (if o then 1 else 0) ∧
    (process_pdf o c).2 = (o && c) := by
  cases o <;> cases c <;> decide

/-- C4: the Stage-1 loop writes one markdown file for exactly the pages
whose per-page body returns normally, in order, and logs exactly the pages
whose body raises; in particular a failing page never aborts the pages
after it, and every succeeding page's file is produced. -/
theorem C4_page_isolation {α β : Type} (ocrPage : α → Option β) (pages : List α) :
    (run_pdf_pipeline ocrPage pages).1
      = pages.filterMap (fun p => (ocrPage p).map (fun md => (p, md))) ∧
    (run_pdf_pipeline ocrPage pages).2
      = pages.filter (fun p => (ocrPage p).isNone) ∧
    (∀ p md, p ∈ pages → ocrPage p = some md →
      (p, md) ∈ (run_pdf_pipeline ocrPage pages).1) := by
  induction pages with
  | nil =>
    refine ⟨rfl, rfl, ?_⟩
    intro p md hp
    cases hp
  | cons q qs ih =>
    obtain ⟨ih1, ih2, ih3⟩ := ih
    have hparts : (run_pdf_pipeline ocrPage (q :: qs)).1
          = (q :: qs).filterMap (fun p => (ocrPage p).map (fun md => (p, md))) ∧
        (run_pdf_pipeline ocrPage (q :: qs)).2
          = (q :: qs).filter (fun p => (ocrPage p).isNone) := by
      match hq : ocrPage q with
      | some md' =>
        constructor
        · simp only [run_pdf_pipeline, hq, List.filterMap_cons, Option.map_some']
          rw [ih1]
        · simp only [run_pdf_pipeline, hq, List.filter_cons, Option.isNone_some,
            Bool.false_eq_true, if_false]
          rw [ih2]
      | none =>
        constructor
        · simp only [run_pdf_pipeline, hq, List.filterMap_cons, Option.map_none']
          rw [ih1]
        · simp only [run_pdf_pipeline, hq, List.filter_cons, Option.isNone_none, if_true]
          rw [ih2]
    refine ⟨hparts.1, hparts.2, ?_⟩
    intro p md hp hm
    rw [hparts.1, List.mem_filterMap]
    exact ⟨p, hp, by rw [hm]; rfl⟩

/-- Witness for `C4_page_isolation`: page 2 fails, pages 1 and 3 still
produce their files. -/
theorem C4_page_isolation_witness :
    ((1 : Nat) ∈ [1, 2, 3] ∧ (fun p : Nat => if p = 2 then none else some p) 1 = some 1) ∧
    (1, 1) ∈ (run_pdf_pipeline (fun p : Nat => if p = 2 then none else some p) [1, 2, 3]).1 ∧
    (3, 3) ∈ (run_pdf_pipeline (fun p : Nat => if p = 2 then none else some p) [1, 2, 3]).1 :=
  ⟨⟨by decide, by decide⟩,
   (C4_page_isolation (fun p : Nat => if p = 2 then none else some p) [1, 2, 3]).2.2
     1 1 (by decide) (by decide),
   (C4_page_isolation (fun p : Nat => if p = 2 then none else some p) [1, 2, 3]).2.2
     3 3 (by decide) (by decide)⟩

/-- C5 (counterexample): in a file whose image reference `x` occurs twice,
an engine whose captioning call raises every time is invoked twice for that
one reference — the failed call is not cached, so the loop retries on the
second occurrence, contradicting "invoked at most once". -/
theorem C5_counterexample :
    ((findTags "![a](x)![b](x)".data).filter (fun m => m.2 = "x".data)).length = 2 ∧
    (engineCalls (fun _ => true) (fun _ => none) "![a](x)![b](x)".data).count "x".data = 2 ∧
    ¬ ((engineCalls (fun _ => true) (fun _ => none) "![a](x)![b](x)".data).count "x".data ≤ 1) := by
  refine ⟨?_, ?_, ?_⟩
  · rw [findTags_eval]
    decide
  · unfold engineCalls
    rw [findTags_eval]
    decide
  · unfold engineCalls
    rw [findTags_eval]
    decide

/-- C5 (amended): a reference whose captioning call returns normally is
sent to the engine at most once per file — the returned caption (empty or
not) is cached and every later occurrence is skipped.  Only a reference
whose call raises can be retried on a later occurrence. -/
theorem C5_cache_once (imgExists : List Char → Bool)
    (capFn : List Char → Option (List Char)) (text rel cap : List Char)
    (hsucc : capFn rel = some cap) :
    (engineCalls imgExists capFn text).count rel ≤ 1 := by
  unfold engineCalls
  exact captionLoop_count_le_one hsucc

/-- Witness for `C5_cache_once`: a succeeding engine on a duplicated
reference. -/
theorem C5_cache_once_witness :
    ((fun _ : List Char => some "c".data) "x".data = some "c".data) ∧
    (engineCalls (fun _ => true) (fun _ : List Char => some "c".data)
      "![a](x)![b](x)".data).count "x".data ≤ 1 :=
  ⟨rfl, C5_cache_once (fun _ => true) (fun _ => some "c".data)
    "![a](x)![b](x)".data "x".data "c".data rfl⟩

/-- C6: for a matched tag whose reference has a non-empty cached caption,
`APPEND` mode yields exactly the original tag text followed by the caption
block (so the tag is preserved character for character, with the whole-file
substitution containing that segment contiguously), and `REPLACE` mode
yields exactly the inline captioned text, which contains no markdown image
tag at all provided the caption itself carries none. -/
theorem C6_rewrite_modes (text alt rel cap : List Char)
    (cache : List (List Char × List Char))
    (hmem : (alt, rel) ∈ findTags text)
    (hcap : lookupCache cache rel = some cap) (hne : cap ≠ []) :
    (repl CaptionRewrite.APPEND cache alt rel
        = origTag alt rel ++ renderCaptionBlock alt cap ∧
      ∃ pre post, subTags (repl CaptionRewrite.APPEND cache) text
        = pre ++ (origTag alt rel ++ renderCaptionBlock alt cap) ++ post) ∧
    (repl CaptionRewrite.REPLACE cache alt rel
        = pyStrip (altOrImage alt) ++ " (Interpreted and captioned): ".data ++ cap ∧
      (containsJL cap = false →
        findTags (repl CaptionRewrite.REPLACE cache alt rel) = [])) := by
  have happ : repl CaptionRewrite.APPEND cache alt rel
      = origTag alt rel ++ renderCaptionBlock alt cap := by
    unfold repl
    rw [hcap]
    simp only [if_neg hne]
  have hrep : repl CaptionRewrite.REPLACE cache alt rel
      = pyStrip (altOrImage alt) ++ " (Interpreted and captioned): ".data ++ cap := by
    unfold repl
    rw [hcap]
    simp only [if_neg hne]
  refine ⟨⟨happ, ?_⟩, hrep, ?_⟩
  · obtain ⟨pre, post, hp⟩ := subTags_mem_decomp (repl CaptionRewrite.APPEND cache) hmem
    exact ⟨pre, post, by rw [hp, happ]⟩
  · intro hcapJL
    rw [hrep]
    exact findTags_nil_of_noJL (replaceText_noJL (findTags_mem_alt_noJL hmem) hcapJL)

/-- Witness for `C6_rewrite_modes` on `![alt](img.png)` with caption
`"a cat"`. -/
theorem C6_rewrite_modes_witness :
    ("alt".data, "img.png".data) ∈ findTags "![alt](img.png)".data ∧
    repl CaptionRewrite.APPEND [("img.png".data, "a cat".data)] "alt".data "img.png".data
      = origTag "alt".data "img.png".data
        ++ renderCaptionBlock "alt".data "a cat".data ∧
    findTags (repl CaptionRewrite.REPLACE [("img.png".data, "a cat".data)]
      "alt".data "img.png".data) = [] := by
  have hmem : ("alt".data, "img.png".data) ∈ findTags "![alt](img.png)".data := by
    rw [findTags_eval]
    decide
  have h := C6_rewrite_modes "![alt](img.png)".data "alt".data "img.png".data
    "a cat".data [("img.png".data, "a cat".data)] hmem (by decide) (by decide)
  exact ⟨hmem, h.1.1, h.2.2 (by decide)⟩

/-- C7: a markdown file with zero image references is reported unchanged
(`False` returned), no write is performed, and the file content after the
stage is byte-identical to its content before. -/
theorem C7_no_images (imgExists : List Char → Bool)
    (capFn : List Char → Option (List Char)) (rewrite : CaptionRewrite)
    (text : List Char) (h : findTags text = []) :
    caption_markdown_file imgExists capFn rewrite text
      = ⟨false, none⟩ ∧
    contentAfter imgExists capFn rewrite text = text := by
  unfold contentAfter caption_markdown_file
  simp [h]

/-- Witness for `C7_no_images`. -/
theorem C7_no_images_witness :
    findTags "no images here".data = [] ∧
    contentAfter (fun _ => true) (fun _ => none) CaptionRewrite.APPEND
      "no images here".data = "no images here".data := by
  have h : findTags "no images here".data = [] := by
    rw [findTags_eval]
    decide
  exact ⟨h, (C7_no_images (fun _ => true) (fun _ => none) CaptionRewrite.APPEND
    "no images here".data h).2⟩

/-- C8: every fail-fast rejection is exactly the 429 response with the
short fixed `Retry-After: 15` hint, every wait-bounded rejection is
exactly the 503 response with the strictly longer `Retry-After: 30` hint,
and both are distinct from each other and from the two 500 stage-failure
responses (which carry no retry hint) — admission failures are retryable
outcomes distinguishable from stage failures and between policies. -/
theorem C8_admission_outcomes (g : Gate) (t : ℚ) :
    (∀ e, process_pdf_endpoint_admission g false t = Except.error e →
      e = busyFailFast) ∧
    (∀ e, process_pdf_endpoint_admission g true t = Except.error e →
      e = busyWaitBounded) ∧
    busyFailFast.status = 429 ∧ busyWaitBounded.status = 503 ∧
    ocrStageFailure.status = 500 ∧ captionStageFailure.status = 500 ∧
    busyFailFast ≠ busyWaitBounded ∧ busyFailFast ≠ ocrStageFailure ∧
    busyFailFast ≠ captionStageFailure ∧ busyWaitBounded ≠ ocrStageFailure ∧
    busyWaitBounded ≠ captionStageFailure ∧
    ocrStageFailure.retryAfterS = none ∧ captionStageFailure.retryAfterS = none ∧
    busyFailFast.retryAfterS = some 15 ∧ busyWaitBounded.retryAfterS = some 30 ∧
    (15 : Nat) < 30 := by
  refine ⟨?_, ?_, by decide, by decide, by decide, by decide, by decide, by decide,
    by decide, by decide, by decide, by decide, by decide, by decide, by decide, by decide⟩
  · intro e he
    unfold process_pdf_endpoint_admission at he
    rw [show (!false) = true from rfl, if_pos rfl] at he
    split at he
    · cases he
    · injection he with h
      exact h.symm
  · intro e he
    unfold process_pdf_endpoint_admission at he
    rw [show (!true) = false from rfl, if_neg (by simp)] at he
    split at he
    · cases he
    · injection he with h
      exact h.symm

/-- Witness for `C8_admission_outcomes` on a saturated one-slot gate. -/
theorem C8_admission_outcomes_witness :
    process_pdf_endpoint_admission (Gate.mk 0 1) false (0 : ℚ)
      = Except.error busyFailFast ∧
    process_pdf_endpoint_admission (Gate.mk 0 1) true (0 : ℚ)
      = Except.error busyWaitBounded ∧
    busyFailFast = busyFailFast ∧ busyWaitBounded = busyWaitBounded := by
  have h1 : process_pdf_endpoint_admission (Gate.mk 0 1) false (0 : ℚ)
      = Except.error busyFailFast := rfl
  have h2 : process_pdf_endpoint_admission (Gate.mk 0 1) true (0 : ℚ)
      = Except.error busyWaitBounded := by
    unfold process_pdf_endpoint_admission try_admit_with_timeout
    rw [if_pos (le_refl (0 : ℚ))]
    rfl
  exact ⟨h1, h2,
    (C8_admission_outcomes (Gate.mk 0 1) 0).1 busyFailFast h1,
    (C8_admission_outcomes (Gate.mk 0 1) 0).2.1 busyWaitBounded h2⟩

/-- C9: `try_admit_with_timeout 0` never waits and never succeeds — per the
source's own note, `asyncio.wait_for` with `timeout <= 0` raises
`TimeoutError` before the acquire runs, even on a gate with a free slot —
while the immediate probe `try_admit_now`, which uses the nonzero `0.1 s`
slack, succeeds on the same free gate: the two operations are distinct. -/
theorem C9_zero_timeout :
    (∀ g : Gate, try_admit_with_timeout g 0 = (false, g)) ∧
    (try_admit_now (Gate.init 1)).1 = true ∧
    (try_admit_with_timeout (Gate.init 1) 0).1 = false := by
  refine ⟨?_, by decide, by decide⟩
  intro g
  unfold try_admit_with_timeout
  rw [if_pos (le_refl (0 : ℚ))]

/-- C10: a matched reference for which no caption was produced — missing
image file, engine exception, or empty caption — is rendered by `repl` as
its original `![alt](rel)` tag unchanged under either rewrite mode, and the
file content after the stage still contains that original tag. -/
theorem C10_failed_captions (imgExists : List Char → Bool)
    (capFn : List Char → Option (List Char)) (rewrite : CaptionRewrite)
    (text alt rel : List Char)
    (hmem : (alt, rel) ∈ findTags text)
    (hfail : imgExists rel = false ∨ capFn rel = none ∨ capFn rel = some []) :
    repl rewrite (captionLoop imgExists capFn (findTags text) []).1 alt rel
      = origTag alt rel ∧
    ∃ pre post, contentAfter imgExists capFn rewrite text
      = pre ++ origTag alt rel ++ post := by
  have hsound := @captionLoop_cache_sound imgExists capFn (findTags text) []
    (by intro k v h; simp [lookupCache] at h)
  have h1 : repl rewrite (captionLoop imgExists capFn (findTags text) []).1 alt rel
      = origTag alt rel := by
    match hlook : lookupCache (captionLoop imgExists capFn (findTags text) []).1 rel with
    | none =>
      unfold repl
      rw [hlook]
    | some v =>
      obtain ⟨hex, hcap⟩ := hsound rel v hlook
      rcases hfail with hf | hf | hf
      · rw [hex] at hf
        cases hf
      · rw [hcap] at hf
        cases hf
      · rw [hcap] at hf
        injection hf with hv
        subst hv
        unfold repl
        rw [hlook]
        rfl
  refine ⟨h1, ?_⟩
  have hnil : ¬ findTags text = [] := by
    intro h0
    rw [h0] at hmem
    cases hmem
  unfold contentAfter caption_markdown_file
  simp only [if_neg hnil]
  by_cases heq : subTags (repl rewrite (captionLoop imgExists capFn (findTags text) []).1) text = text
  · rw [if_pos heq]
    simp only [Option.getD]
    exact findTags_mem_decomp hmem
  · rw [if_neg heq]
    simp only [Option.getD]
    obtain ⟨pre, post, hp⟩ :=
      subTags_mem_decomp (repl rewrite (captionLoop imgExists capFn (findTags text) []).1) hmem
    exact ⟨pre, post, by rw [hp, h1]⟩

/-- Witness for `C10_failed_captions`: a missing image file in `REPLACE`
mode leaves the markdown image syntax in place. -/
theorem C10_failed_captions_witness :
    ("a".data, "x".data) ∈ findTags "![a](x)".data ∧
    ((fun _ : List Char => false) "x".data = false) ∧
    ∃ pre post, contentAfter (fun _ => false) (fun _ => none)
      CaptionRewrite.REPLACE "![a](x)".data
      = pre ++ origTag "a".data "x".data ++ post := by
  have hmem : ("a".data, "x".data) ∈ findTags "![a](x)".data := by
    rw [findTags_eval]
    decide
  exact ⟨hmem, rfl,
    (C10_failed_captions (fun _ => false) (fun _ => none) CaptionRewrite.REPLACE
      "![a](x)".data "a".data "x".data hmem (Or.inl rfl)).2⟩

end PdfScribe
